import Mathlib

/-!
Shallow embedding of the evdev-utils library (src/src/lib.rs).

The library sits on top of the external evdev-rs crate, which the design
treats as a black-box device-handle capability with operations
open / enable / next_event / has_event_pending, plus a glob-style path
enumeration capability.  Those external primitives are modelled here as
explicit oracle or script parameters; all control flow of the library
itself (the async poll loop, the merge-and-classify loops, the capability
enabler) is translated directly from the Rust source.
-/

namespace EvdevUtils

/-- The kind of an I/O error; the code only ever discriminates on
would-block versus anything else (std::io::ErrorKind::WouldBlock). -/
inductive ErrKind where
  | wouldBlock
  | other (n : Nat)
deriving DecidableEq, Repr

/-- Model of std::io::Error: only its kind is ever inspected. -/
structure IoError where
  kind : ErrKind
deriving DecidableEq, Repr

/-- Model of evdev_rs::TimeVal. -/
structure TimeVal where
  tv_sec : Int
  tv_usec : Int
deriving DecidableEq, Repr

/-- Event-type tags (evdev_rs::enums::EventType), restricted to the
variants the library mentions. -/
inductive EventType where
  | EV_SYN
  | EV_KEY
  | EV_REL
  | EV_ABS
  | EV_MSC
deriving DecidableEq, Repr

/-- Event codes (evdev_rs::enums::EventCode): a tagged union over event
classes carrying the numeric code of the concrete signal.  The numeric
values are the Linux input-event code values used by evdev-rs. -/
inductive EventCode where
  | EV_SYN (code : Nat)
  | EV_KEY (code : Nat)
  | EV_REL (code : Nat)
  | EV_ABS (code : Nat)
  | EV_MSC (code : Nat)
deriving DecidableEq, Repr

/-- EV_KEY::KEY_RESERVED. -/
def KEY_RESERVED : Nat := 0

/-- EV_KEY::KEY_MICMUTE. -/
def KEY_MICMUTE : Nat := 248

/-- EV_KEY::BTN_LEFT. -/
def BTN_LEFT : Nat := 272

/-- EV_KEY::BTN_RIGHT. -/
def BTN_RIGHT : Nat := 273

/-- EV_KEY::BTN_MIDDLE. -/
def BTN_MIDDLE : Nat := 274

/-- EV_KEY::BTN_SIDE. -/
def BTN_SIDE : Nat := 275

/-- EV_KEY::BTN_EXTRA. -/
def BTN_EXTRA : Nat := 276

/-- EV_REL::REL_X. -/
def REL_X : Nat := 0

/-- EV_REL::REL_Y. -/
def REL_Y : Nat := 1

/-- EV_REL::REL_HWHEEL. -/
def REL_HWHEEL : Nat := 6

/-- EV_REL::REL_WHEEL. -/
def REL_WHEEL : Nat := 8

/-- EV_REL::REL_MAX. -/
def REL_MAX : Nat := 15

/-- Model of evdev_rs::InputEvent: a timestamped record of an event code
and an integer value (key: 0 = release, 1 = press, 2 = autorepeat). -/
structure InputEvent where
  time : TimeVal
  event_code : EventCode
  value : Int
deriving DecidableEq, Repr

/-- A device path (std::path::PathBuf), opaque to the library. -/
abbrev DevPath := String

section PollNext

/-- Outcome of one call to the external next_event decode primitive
(evdev_rs::Device::next_event with ReadFlag::NORMAL), with the ReadStatus
component dropped as the source drops it. -/
inductive DecodeOutcome where
  | ok (ev : InputEvent)
  | error (e : IoError)
deriving DecidableEq, Repr

/-- Outcome of one resolved call to Async::poll_readable: still pending,
ready, or failed. -/
inductive ReadableOutcome where
  | pending
  | ready
  | fail (e : IoError)
deriving DecidableEq, Repr

/-- Result of one call to AsyncDevice::poll_next, i.e.
Poll<Option<Result<InputEvent, io::Error>>>.  ReadyNone stands for
Poll::Ready(None) (stream end) and ScriptEnd is a model artifact meaning
the finite oracle script was exhausted. -/
inductive PollNext where
  | Pending
  | ReadyEvent (ev : InputEvent)
  | ReadyError (e : IoError)
  | ReadyNone
  | ScriptEnd
deriving DecidableEq, Repr

/-- AsyncDevice::poll_next, translated from the Stream impl in the
source.  The three lists script the successive answers of the external
primitives: has_event_pending, poll_readable, and next_event.  If
has_event_pending answers true, the next decode outcome is returned
directly (Ready(Some(..))); otherwise the code waits on poll_readable
(Pending propagates, an error is yielded), and after a ready
notification one decode is attempted: a would-block decode error causes
a self-recursive retry (return self.poll_next(cx)), any other outcome is
yielded. -/
def poll_next : List Bool → List ReadableOutcome → List DecodeOutcome → PollNext
  | [], _, _ => .ScriptEnd
  | true :: _, _, [] => .ScriptEnd
  | true :: _, _, .ok ev :: _ => .ReadyEvent ev
  | true :: _, _, .error e :: _ => .ReadyError e
  | false :: _, [], _ => .ScriptEnd
  | false :: _, .pending :: _, _ => .Pending
  | false :: _, .fail e :: _, _ => .ReadyError e
  | false :: _, .ready :: _, [] => .ScriptEnd
  | false :: _, .ready :: _, .ok ev :: _ => .ReadyEvent ev
  | false :: ps, .ready :: rs, .error e :: ds =>
    if e.kind = ErrKind.wouldBlock then poll_next ps rs ds else .ReadyError e

end PollNext

section Identify

/-- The error type of the identification operations (enum IdentifyError
in the source).  The PatternError and GlobError payloads of the glob
crate are opaque to the library and modelled as bare numbers. -/
inductive IdentifyError where
  | PatternError (e : Nat)
  | GlobError (e : Nat)
  | AsyncDeviceNew (e : IoError)
  | EventStreamEnded
  | ReadEvent (e : IoError)
deriving DecidableEq, Repr

/-- Rust's FromIterator for Result collecting into Result<Vec<_>, _>:
the first error short-circuits, otherwise all ok values are kept in
order. -/
def collectExcept {ε α : Type} : List (Except ε α) → Except ε (List α)
  | [] => .ok []
  | .error e :: _ => .error e
  | .ok a :: rest => (collectExcept rest).map (a :: ·)

/-- all_devices, translated from the source.  The external glob
enumeration is scripted by globRes (pattern error, or the per-path
results of the glob iterator), and the external open-and-wrap
AsyncDevice::new by openDev.  The produced merger is represented by its
fixed set of path-tagged sources, in enumeration order; select_all never
drops a source. -/
def all_devices {α : Type} (globRes : Except Nat (List (Except Nat DevPath)))
    (openDev : DevPath → Except IoError α) :
    Except IdentifyError (List (DevPath × α)) :=
  match globRes with
  | .error e => .error (.PatternError e)
  | .ok items =>
    match collectExcept items with
    | .error e => .error (.GlobError e)
    | .ok paths =>
      match collectExcept (paths.map fun p => (openDev p).map fun d => (p, d)) with
      | .error e => .error (.AsyncDeviceNew e)
      | .ok devs => .ok devs

/-- The acceptance test of identify_keyboard, from the source:
k as u32 >= KEY_RESERVED as u32 && k as u32 <= KEY_MICMUTE as u32 &&
value == 0. -/
def kbdAccepts (k : Nat) (value : Int) : Bool :=
  decide (KEY_RESERVED ≤ k) && decide (k ≤ KEY_MICMUTE) && decide (value = 0)

/-- The same acceptance test as the spec words it, without the vacuous
lower bound: key code at most KEY_MICMUTE and value 0. -/
def kbdAcceptsSimple (k : Nat) (value : Int) : Bool :=
  decide (k ≤ KEY_MICMUTE) && decide (value = 0)

/-- The loop of identify_keyboard over the merged stream, which is
modelled as the list of items try_next will yield (end of list = stream
ended).  A read error is surfaced as ReadEvent, stream end as
EventStreamEnded; the first key-class event passing kbdAccepts ends the
loop with its originating path. -/
def identify_keyboard :
    List (Except IoError (DevPath × InputEvent)) → Except IdentifyError DevPath
  | [] => .error .EventStreamEnded
  | .error e :: _ => .error (.ReadEvent e)
  | .ok (path, ev) :: rest =>
    match ev.event_code with
    | .EV_KEY k =>
      if kbdAccepts k ev.value then .ok path else identify_keyboard rest
    | _ => identify_keyboard rest

/-- The first match arm of the loop of identify_mkb: the fixed set of
mouse-indicative event codes (the or-pattern
BTN_LEFT | BTN_RIGHT | BTN_MIDDLE | BTN_EXTRA | BTN_SIDE |
REL_X | REL_Y | REL_WHEEL | REL_HWHEEL). -/
def isMouseEvidence : EventCode → Bool
  | .EV_KEY k =>
    k == BTN_LEFT || k == BTN_RIGHT || k == BTN_MIDDLE || k == BTN_EXTRA || k == BTN_SIDE
  | .EV_REL r =>
    r == REL_X || r == REL_Y || r == REL_WHEEL || r == REL_HWHEEL
  | _ => false

/-- One iteration of the match statement of identify_mkb on the two
slots: a mouse-indicative code fills the mouse slot when it is empty;
otherwise an EV_KEY event with value 0 fills the keyboard slot when it
is empty; every other event changes nothing. -/
def mkbStep (keeb mouse : Option DevPath) (path : DevPath) (ev : InputEvent) :
    Option DevPath × Option DevPath :=
  if isMouseEvidence ev.event_code then
    (keeb, if mouse.isNone then some path else mouse)
  else
    match ev.event_code with
    | .EV_KEY _ => (if ev.value == 0 && keeb.isNone then some path else keeb, mouse)
    | _ => (keeb, mouse)

/-- The loop of identify_mkb over the merged stream: pull an item
(erroring on read failure or stream end), update the slots with mkbStep,
and return the pair as soon as both slots are filled. -/
def identify_mkb_loop (keeb mouse : Option DevPath) :
    List (Except IoError (DevPath × InputEvent)) → Except IdentifyError (DevPath × DevPath)
  | [] => .error .EventStreamEnded
  | .error e :: _ => .error (.ReadEvent e)
  | .ok (path, ev) :: rest =>
    match mkbStep keeb mouse path ev with
    | (some k, some m) => .ok (k, m)
    | (some k, none) => identify_mkb_loop (some k) none rest
    | (none, some m) => identify_mkb_loop none (some m) rest
    | (none, none) => identify_mkb_loop none none rest

/-- identify_mkb on a merged stream: both slots start empty. -/
def identify_mkb (evs : List (Except IoError (DevPath × InputEvent))) :
    Except IdentifyError (DevPath × DevPath) :=
  identify_mkb_loop none none evs

/-- A path p was yielded by the stream: some ok item of the stream is
tagged with p. -/
def pathYielded (p : DevPath) (evs : List (Except IoError (DevPath × InputEvent))) : Prop :=
  ∃ ev, Except.ok (p, ev) ∈ evs

end Identify

section Enable

/-- Argument of the external enable primitive of the device-wrapper
capability: an event type or an event code. -/
inductive EnableArg where
  | etype (t : EventType)
  | ecode (c : EventCode)
deriving DecidableEq, Repr

/-- Oracle for the external enable primitive: none means the enable
succeeded, some e that it failed with e. -/
def Enabler : Type := EnableArg → Option IoError

/-- DeviceWrapperExt::enable_codes, translated from the source.  The
external code iterator start.iter() (which yields start first and then
ascends through the defined codes) is passed explicitly as the list
iter.  Each code of the iteration is enabled in order; after enabling a
code equal to endCode the function returns Ok; an enable failure is
returned at once; an exhausted iteration also returns Ok.  The first
component collects the codes that were successfully enabled, in
order. -/
def enable_codes (dev : Enabler) (iter : List EventCode) (endCode : EventCode) :
    List EventCode × Except IoError Unit :=
  match iter with
  | [] => ([], .ok ())
  | code :: rest =>
    match dev (.ecode code) with
    | some e => ([], .error e)
    | none =>
      if code = endCode then ([code], .ok ())
      else
        let (enabled, res) := enable_codes dev rest endCode
        (code :: enabled, res)

/-- DeviceWrapperExt::enable_mouse, translated from the source: enable
the EV_REL type, then the EV_KEY type, then the codes from BTN_LEFT
through BTN_EXTRA, then the codes from REL_X through REL_MAX.  keyIter
and relIter stand for the external iterations
EventCode::EV_KEY(EV_KEY::BTN_LEFT).iter() and
EventCode::EV_REL(EV_REL::REL_X).iter().  The first component collects
everything successfully enabled, in order; any failure aborts the
remaining steps. -/
def enable_mouse (dev : Enabler) (keyIter relIter : List EventCode) :
    List EnableArg × Except IoError Unit :=
  match dev (.etype .EV_REL) with
  | some e => ([], .error e)
  | none =>
    match dev (.etype .EV_KEY) with
    | some e => ([.etype .EV_REL], .error e)
    | none =>
      match enable_codes dev keyIter (.EV_KEY BTN_EXTRA) with
      | (ek, .error e) =>
        ([.etype .EV_REL, .etype .EV_KEY] ++ ek.map .ecode, .error e)
      | (ek, .ok ()) =>
        match enable_codes dev relIter (.EV_REL REL_MAX) with
        | (er, res) =>
          ([.etype .EV_REL, .etype .EV_KEY] ++ ek.map .ecode ++ er.map .ecode, res)

end Enable

/-! Helper lemmas. -/

/-- poll_next never produces Poll::Ready(None): the Stream impl always
wraps its ready results in Some. -/
theorem pollNext_ne_ReadyNone (ps : List Bool) (rs : List ReadableOutcome)
    (ds : List DecodeOutcome) : poll_next ps rs ds ≠ .ReadyNone := by
  induction ps, rs, ds using poll_next.induct <;> simp [poll_next] <;> split <;> simp_all

/-- Claim C10: the lower-bound comparison of identify_keyboard against
KEY_RESERVED is vacuous (KEY_RESERVED is 0 and key codes are unsigned),
so the acceptance test is equivalent to: code at most KEY_MICMUTE and
value 0. -/
theorem kbd_accept_equiv (k : Nat) (value : Int) :
    kbdAccepts k value = kbdAcceptsSimple k value := by
  simp [kbdAccepts, kbdAcceptsSimple, KEY_RESERVED]

/-- Witness for C10 at a concrete input: KEY_A (code 30), release. -/
theorem kbd_accept_equiv_inst :
    kbdAccepts 30 0 = kbdAcceptsSimple 30 0 := kbd_accept_equiv 30 0

/-- Claim C6: when the merged stream ends before a decision is reached,
both classifiers fail with EventStreamEnded (whatever the slot state of
identify_mkb), an error kind distinct from the I/O read-error kind, and
no partially-filled success is returned. -/
theorem identify_stream_ended :
    (identify_keyboard [] = .error .EventStreamEnded)
    ∧ (∀ keeb mouse, identify_mkb_loop keeb mouse [] = .error .EventStreamEnded)
    ∧ (∀ e, IdentifyError.EventStreamEnded ≠ IdentifyError.ReadEvent e) := by
  refine ⟨rfl, fun keeb mouse => rfl, fun e h => ?_⟩
  exact IdentifyError.noConfusion h

/-- Witness for C6 at a concrete slot state and error. -/
theorem identify_stream_ended_inst :
    identify_mkb_loop (some "K") none [] = .error .EventStreamEnded
    ∧ IdentifyError.EventStreamEnded ≠ IdentifyError.ReadEvent ⟨.wouldBlock⟩ :=
  ⟨identify_stream_ended.2.1 (some "K") none, identify_stream_ended.2.2 ⟨.wouldBlock⟩⟩

/-- Claim C2: a buffered pending event is decoded and returned as a
Ready item at once, without consulting the readability script at all;
only with no buffered event pending does poll_next wait on readability
(propagating Pending) before attempting a decode. -/
theorem poll_next_buffered_first :
    (∀ ps rs ev ds, poll_next (true :: ps) rs (.ok ev :: ds) = .ReadyEvent ev)
    ∧ (∀ ps rs e ds, poll_next (true :: ps) rs (.error e :: ds) = .ReadyError e)
    ∧ (∀ ps rs rs' ds, poll_next (true :: ps) rs ds = poll_next (true :: ps) rs' ds)
    ∧ (∀ ps rs ds, poll_next (false :: ps) (.pending :: rs) ds = .Pending)
    ∧ (∀ ps rs ev ds, poll_next (false :: ps) (.ready :: rs) (.ok ev :: ds) = .ReadyEvent ev) := by
  refine ⟨fun ps rs ev ds => rfl, fun ps rs e ds => rfl, fun ps rs rs' ds => ?_,
    fun ps rs ds => rfl, fun ps rs ev ds => rfl⟩
  cases ds with
  | nil => rfl
  | cons d ds => cases d <;> rfl

/-- Witness for C2 on concrete scripts. -/
theorem poll_next_buffered_first_inst :
    poll_next [true] [.pending] [.ok ⟨⟨0, 0⟩, .EV_KEY 30, 0⟩]
      = .ReadyEvent ⟨⟨0, 0⟩, .EV_KEY 30, 0⟩
    ∧ poll_next [false] [.pending] [.ok ⟨⟨0, 0⟩, .EV_KEY 30, 0⟩] = .Pending :=
  ⟨poll_next_buffered_first.1 [] [.pending] ⟨⟨0, 0⟩, .EV_KEY 30, 0⟩ [],
   poll_next_buffered_first.2.2.2.1 [] [] [.ok ⟨⟨0, 0⟩, .EV_KEY 30, 0⟩]⟩

/-- Counterexample to claim C3 as stated: poll_next can yield an item
carrying a would-block error to its consumer.  With a buffered event
reported pending and the decode nevertheless returning would-block, the
pending branch passes the error through verbatim. -/
theorem poll_next_yields_wouldblock :
    ¬ (∀ ps rs ds e, poll_next ps rs ds = .ReadyError e → e.kind ≠ .wouldBlock) := by
  intro h
  exact h [true] [] [.error ⟨.wouldBlock⟩] ⟨.wouldBlock⟩ rfl rfl

/-- Claim C3, amended: a would-block decode after a readability
notification is retried from the buffered-event check and never
surfaced; any non-would-block decode error after readability is yielded
as a terminal error item; the stream never yields an empty (None)
result; but a decode outcome taken in the buffered-pending branch is
yielded verbatim, so a would-block error there reaches the consumer. -/
theorem poll_next_wouldblock_retry :
    (∀ ps rs e ds, e.kind = .wouldBlock →
      poll_next (false :: ps) (.ready :: rs) (.error e :: ds) = poll_next ps rs ds)
    ∧ (∀ ps rs e ds, e.kind ≠ .wouldBlock →
      poll_next (false :: ps) (.ready :: rs) (.error e :: ds) = .ReadyError e)
    ∧ (∀ ps rs ds, poll_next ps rs ds ≠ .ReadyNone)
    ∧ (∀ ps rs e ds, poll_next (true :: ps) rs (.error e :: ds) = .ReadyError e) := by
  refine ⟨fun ps rs e ds he => ?_, fun ps rs e ds he => ?_,
    pollNext_ne_ReadyNone, fun ps rs e ds => rfl⟩
  · simp [poll_next, he]
  · simp [poll_next, he]

/-- Witness for C3 (amended) on concrete scripts: one benign would-block
race is retried and the following buffered event is delivered. -/
theorem poll_next_wouldblock_retry_inst :
    poll_next [false, true] [.ready] [.error ⟨.wouldBlock⟩, .ok ⟨⟨0, 0⟩, .EV_KEY 30, 0⟩]
      = poll_next [true] [] [.ok ⟨⟨0, 0⟩, .EV_KEY 30, 0⟩]
    ∧ poll_next [false] [.ready] [.error ⟨.other 5⟩] = .ReadyError ⟨.other 5⟩ :=
  ⟨poll_next_wouldblock_retry.1 [true] [] ⟨.wouldBlock⟩ [.ok ⟨⟨0, 0⟩, .EV_KEY 30, 0⟩] rfl,
   poll_next_wouldblock_retry.2.1 [] [] ⟨.other 5⟩ [] (by simp)⟩

/-- Each slot leaving mkbStep is either the incoming slot or the path of
the processed event. -/
theorem mkbStep_cases (keeb mouse : Option DevPath) (path : DevPath) (ev : InputEvent) :
    ((mkbStep keeb mouse path ev).1 = keeb ∨ (mkbStep keeb mouse path ev).1 = some path)
    ∧ ((mkbStep keeb mouse path ev).2 = mouse ∨ (mkbStep keeb mouse path ev).2 = some path) := by
  obtain ⟨t, ec, v⟩ := ev
  by_cases hm : isMouseEvidence ec = true
  · refine ⟨Or.inl ?_, ?_⟩
    · simp [mkbStep, hm]
    · cases mouse <;> simp [mkbStep, hm]
  · have hm' : isMouseEvidence ec = false := by simpa using hm
    cases ec <;> (simp [mkbStep, hm']; try tauto)

/-- The first slot leaving mkbStep, in equation form. -/
theorem mkbStep_fst (keeb mouse : Option DevPath) (path : DevPath) (ev : InputEvent)
    (k' m' : Option DevPath) (hstep : mkbStep keeb mouse path ev = (k', m')) :
    k' = keeb ∨ k' = some path := by
  have := (mkbStep_cases keeb mouse path ev).1
  rw [hstep] at this
  exact this

/-- The second slot leaving mkbStep, in equation form. -/
theorem mkbStep_snd (keeb mouse : Option DevPath) (path : DevPath) (ev : InputEvent)
    (k' m' : Option DevPath) (hstep : mkbStep keeb mouse path ev = (k', m')) :
    m' = mouse ∨ m' = some path := by
  have := (mkbStep_cases keeb mouse path ev).2
  rw [hstep] at this
  exact this

/-- A path yielded by the tail of a stream is yielded by the stream. -/
theorem pathYielded_cons (p : DevPath) (x : Except IoError (DevPath × InputEvent))
    (evs : List (Except IoError (DevPath × InputEvent))) (h : pathYielded p evs) :
    pathYielded p (x :: evs) :=
  ⟨h.choose, List.mem_cons_of_mem _ h.choose_spec⟩

/-- Claim C1: the per-event update rule of identify_mkb.  A
mouse-indicative code fills the empty mouse slot with the event's path
and otherwise changes nothing; a non-mouse-indicative key-class event
with value 0 fills the empty keyboard slot and otherwise changes
nothing; every other event changes nothing; a filled slot is never
overwritten. -/
theorem mkbStep_update_rule (keeb mouse : Option DevPath) (path : DevPath) (ev : InputEvent) :
    (isMouseEvidence ev.event_code = true → mouse = none →
      mkbStep keeb mouse path ev = (keeb, some path))
    ∧ (isMouseEvidence ev.event_code = true → mouse ≠ none →
      mkbStep keeb mouse path ev = (keeb, mouse))
    ∧ (isMouseEvidence ev.event_code = false → (∃ k, ev.event_code = .EV_KEY k) →
        ev.value = 0 → keeb = none →
      mkbStep keeb mouse path ev = (some path, mouse))
    ∧ (isMouseEvidence ev.event_code = false →
        ((∀ k, ev.event_code ≠ .EV_KEY k) ∨ ev.value ≠ 0 ∨ keeb ≠ none) →
      mkbStep keeb mouse path ev = (keeb, mouse))
    ∧ (∀ m, mouse = some m → (mkbStep keeb mouse path ev).2 = some m)
    ∧ (∀ k, keeb = some k → (mkbStep keeb mouse path ev).1 = some k) := by
  obtain ⟨t, ec, v⟩ := ev
  refine ⟨fun hm hmn => ?_, fun hm hmn => ?_, fun hm hk hv hkn => ?_,
    fun hm hrest => ?_, fun m hm' => ?_, fun k hk' => ?_⟩
  · simp only [] at hm
    simp [mkbStep, hm, hmn]
  · cases mouse with
    | none => exact absurd rfl hmn
    | some m =>
      simp only [] at hm
      simp [mkbStep, hm]
  · obtain ⟨k, hk⟩ := hk
    simp only [] at hm hk hv
    subst hk
    simp [mkbStep, hm, hv, hkn]
  · simp only [] at hm hrest
    cases ec <;> simp [mkbStep, hm]
    case EV_KEY k =>
      rcases hrest with h | h | h
      · exact absurd rfl (h k)
      · simp [h]
      · cases keeb with
        | none => exact absurd rfl h
        | some k' => simp
  · subst hm'
    unfold mkbStep
    split
    · simp
    · cases ec <;> simp
  · subst hk'
    unfold mkbStep
    split
    · simp
    · cases ec <;> simp

/-- Witness for C1 on concrete inputs: a REL_X event fills the empty
mouse slot; a KEY_A release fills the empty keyboard slot; a filled
mouse slot survives a second mouse-indicative event from another
path. -/
theorem mkbStep_update_rule_inst :
    mkbStep none none "M" ⟨⟨0, 0⟩, .EV_REL REL_X, 1⟩ = (none, some "M")
    ∧ mkbStep none (some "M") "K" ⟨⟨0, 0⟩, .EV_KEY 30, 0⟩ = (some "K", some "M")
    ∧ mkbStep none (some "M") "M2" ⟨⟨0, 0⟩, .EV_REL REL_X, 1⟩ = (none, some "M") :=
  ⟨(mkbStep_update_rule none none "M" ⟨⟨0, 0⟩, .EV_REL REL_X, 1⟩).1 rfl rfl,
   (mkbStep_update_rule none (some "M") "K" ⟨⟨0, 0⟩, .EV_KEY 30, 0⟩).2.2.1 rfl ⟨30, rfl⟩ rfl rfl,
   (mkbStep_update_rule none (some "M") "M2" ⟨⟨0, 0⟩, .EV_REL REL_X, 1⟩).2.1 rfl (by simp)⟩

/-- Claim C4: identify_keyboard returns the path of the first key-class
event with code between KEY_RESERVED and KEY_MICMUTE and value 0; a
release on a code above the range, a non-zero value, or a non-key event
leaves the loop running; hence a press-then-release pair on an in-range
code from path A returns A after exactly those two events, whatever
follows. -/
theorem identify_keyboard_match :
    (∀ p k v t rest, kbdAccepts k v = true →
      identify_keyboard (.ok (p, ⟨t, .EV_KEY k, v⟩) :: rest) = .ok p)
    ∧ (∀ p k v t rest, KEY_MICMUTE < k ∨ v ≠ 0 →
      identify_keyboard (.ok (p, ⟨t, .EV_KEY k, v⟩) :: rest) = identify_keyboard rest)
    ∧ (∀ p ev rest, (∀ k, ev.event_code ≠ .EV_KEY k) →
      identify_keyboard (.ok (p, ev) :: rest) = identify_keyboard rest)
    ∧ (∀ A k t t' rest, k ≤ KEY_MICMUTE →
      identify_keyboard
        (.ok (A, ⟨t, .EV_KEY k, 1⟩) :: .ok (A, ⟨t', .EV_KEY k, 0⟩) :: rest) = .ok A) := by
  refine ⟨fun p k v t rest h => ?_, fun p k v t rest h => ?_,
    fun p ev rest h => ?_, fun A k t t' rest h => ?_⟩
  · simp [identify_keyboard, h]
  · have : kbdAccepts k v = false := by
      rcases h with h | h <;> simp [kbdAccepts, KEY_MICMUTE] at * <;> omega
    simp [identify_keyboard, this]
  · cases hec : ev.event_code <;> simp_all [identify_keyboard]
  · have h1 : kbdAccepts k 1 = false := by simp [kbdAccepts]
    have h0 : kbdAccepts k 0 = true := by
      simp [kbdAccepts, KEY_RESERVED, KEY_MICMUTE] at *; omega
    simp [identify_keyboard, h1, h0]

/-- Witness for C4: press then release of KEY_A (code 30) from path A
returns A; a gamepad-button release (BTN_SOUTH, code 304) does not
match. -/
theorem identify_keyboard_match_inst :
    identify_keyboard
      [.ok ("A", ⟨⟨0, 0⟩, .EV_KEY 30, 1⟩), .ok ("A", ⟨⟨0, 0⟩, .EV_KEY 30, 0⟩)] = .ok "A"
    ∧ identify_keyboard [.ok ("B", ⟨⟨0, 0⟩, .EV_KEY 304, 0⟩)] = identify_keyboard [] :=
  ⟨identify_keyboard_match.2.2.2 "A" 30 ⟨0, 0⟩ ⟨0, 0⟩ [] (by decide),
   identify_keyboard_match.2.1 "B" 304 0 ⟨0, 0⟩ [] (by decide)⟩

/-- Counterexample to claim C5 as stated: identify_mkb can succeed with
the same path in both components.  A single device that first shows
relative motion and then a key release fills both slots with its own
path. -/
theorem identify_mkb_same_path :
    ¬ (∀ evs k m, identify_mkb evs = .ok (k, m) → k ≠ m) := by
  intro h
  exact h [.ok ("P", ⟨⟨0, 0⟩, .EV_REL REL_X, 1⟩), .ok ("P", ⟨⟨0, 0⟩, .EV_KEY 30, 0⟩)]
    "P" "P" rfl rfl

/-- Slot-state invariant of the identify_mkb loop: on success, each
returned component either was already in its slot or is the path of
some ok item of the remaining stream. -/
theorem mkb_loop_paths (evs : List (Except IoError (DevPath × InputEvent)))
    (keeb mouse : Option DevPath) (k m : DevPath)
    (h : identify_mkb_loop keeb mouse evs = .ok (k, m)) :
    (keeb = some k ∨ pathYielded k evs) ∧ (mouse = some m ∨ pathYielded m evs) := by
  induction evs generalizing keeb mouse with
  | nil => simp [identify_mkb_loop] at h
  | cons item rest ih =>
    match item with
    | .error e => simp [identify_mkb_loop] at h
    | .ok (path, ev) =>
      rw [identify_mkb_loop] at h
      rcases hstep : mkbStep keeb mouse path ev with ⟨k', m'⟩
      rw [hstep] at h
      have hfst := mkbStep_fst keeb mouse path ev k' m' hstep
      have hsnd := mkbStep_snd keeb mouse path ev k' m' hstep
      cases k' with
      | some a =>
        cases m' with
        | some b =>
          obtain ⟨ha, hb⟩ : a = k ∧ b = m := by simpa using h
          refine ⟨?_, ?_⟩
          · rcases hfst with h1 | h1
            · exact Or.inl (by rw [← ha]; exact h1.symm)
            · have hp : a = path := Option.some.inj h1
              exact Or.inr ⟨ev, by rw [← ha, hp]; exact List.mem_cons_self _ _⟩
          · rcases hsnd with h1 | h1
            · exact Or.inl (by rw [← hb]; exact h1.symm)
            · have hp : b = path := Option.some.inj h1
              exact Or.inr ⟨ev, by rw [← hb, hp]; exact List.mem_cons_self _ _⟩
        | none =>
          have h' : identify_mkb_loop (some a) none rest = .ok (k, m) := h
          obtain ⟨ih1, ih2⟩ := ih (some a) none h'
          refine ⟨?_, ?_⟩
          · rcases ih1 with h1 | h1
            · have ha : a = k := Option.some.inj h1
              rcases hfst with h2 | h2
              · exact Or.inl (by rw [← ha]; exact h2.symm)
              · have hp : a = path := Option.some.inj h2
                exact Or.inr ⟨ev, by rw [← ha, hp]; exact List.mem_cons_self _ _⟩
            · exact Or.inr (pathYielded_cons k _ rest h1)
          · rcases ih2 with h1 | h1
            · exact absurd h1 (Option.noConfusion)
            · exact Or.inr (pathYielded_cons m _ rest h1)
      | none =>
        cases m' with
        | some b =>
          have h' : identify_mkb_loop none (some b) rest = .ok (k, m) := h
          obtain ⟨ih1, ih2⟩ := ih none (some b) h'
          refine ⟨?_, ?_⟩
          · rcases ih1 with h1 | h1
            · exact absurd h1 (Option.noConfusion)
            · exact Or.inr (pathYielded_cons k _ rest h1)
          · rcases ih2 with h1 | h1
            · have hb : b = m := Option.some.inj h1
              rcases hsnd with h2 | h2
              · exact Or.inl (by rw [← hb]; exact h2.symm)
              · have hp : b = path := Option.some.inj h2
                exact Or.inr ⟨ev, by rw [← hb, hp]; exact List.mem_cons_self _ _⟩
            · exact Or.inr (pathYielded_cons m _ rest h1)
        | none =>
          have h' : identify_mkb_loop none none rest = .ok (k, m) := h
          obtain ⟨ih1, ih2⟩ := ih none none h'
          refine ⟨?_, ?_⟩
          · rcases ih1 with h1 | h1
            · exact absurd h1 (Option.noConfusion)
            · exact Or.inr (pathYielded_cons k _ rest h1)
          · rcases ih2 with h1 | h1
            · exact absurd h1 (Option.noConfusion)
            · exact Or.inr (pathYielded_cons m _ rest h1)

/-- Claim C5, amended: a successful identify_mkb returns a pair of
device paths each of which originated from some event of the stream,
but the two paths need not be distinct. -/
theorem identify_mkb_paths_from_stream
    (evs : List (Except IoError (DevPath × InputEvent))) (k m : DevPath)
    (h : identify_mkb evs = .ok (k, m)) :
    pathYielded k evs ∧ pathYielded m evs := by
  have := mkb_loop_paths evs none none k m h
  rcases this with ⟨h1 | h1, h2 | h2⟩ <;> simp_all

/-- Witness for C5 (amended): the keyboard path K and mouse path M both
occur in the stream that produced them. -/
theorem identify_mkb_paths_from_stream_inst :
    pathYielded "K"
      [.ok ("M", ⟨⟨0, 0⟩, .EV_REL REL_X, 1⟩), .ok ("K", ⟨⟨0, 0⟩, .EV_KEY 30, 0⟩)]
    ∧ pathYielded "M"
      [.ok ("M", ⟨⟨0, 0⟩, .EV_REL REL_X, 1⟩), .ok ("K", ⟨⟨0, 0⟩, .EV_KEY 30, 0⟩)] :=
  identify_mkb_paths_from_stream
    [.ok ("M", ⟨⟨0, 0⟩, .EV_REL REL_X, 1⟩), .ok ("K", ⟨⟨0, 0⟩, .EV_KEY 30, 0⟩)]
    "K" "M" rfl

/-- Except.map applied to an ok value. -/
theorem exceptMap_ok {ε α β : Type} (f : α → β) (x : α) :
    Except.map f (Except.ok (ε := ε) x) = Except.ok (f x) := rfl

/-- Except.map applied to an error. -/
theorem exceptMap_error {ε α β : Type} (f : α → β) (e : ε) :
    Except.map f (Except.error e : Except ε α) = Except.error e := rfl

/-- Collecting a list of ok items yields the list of their values. -/
theorem collectExcept_map_ok {ε α : Type} (l : List α) :
    collectExcept (ε := ε) (l.map .ok) = .ok l := by
  induction l with
  | nil => rfl
  | cons a l ih => simp [collectExcept, ih, Except.map]

/-- Collecting short-circuits at the first error. -/
theorem collectExcept_first_error {ε α : Type} (pre : List α) (e : ε)
    (post : List (Except ε α)) :
    collectExcept (pre.map .ok ++ .error e :: post) = .error e := by
  induction pre with
  | nil => rfl
  | cons a l ih => simp [collectExcept, ih, Except.map]

/-- Collecting the tagged open results fails with the first open error
when every earlier path opens successfully. -/
theorem collectExcept_open_error {α : Type} (openDev : DevPath → Except IoError α)
    (pre : List DevPath) (p : DevPath) (post : List DevPath) (e : IoError)
    (hok : ∀ q ∈ pre, ∃ d, openDev q = .ok d) (hp : openDev p = .error e) :
    collectExcept ((pre ++ p :: post).map fun q => (openDev q).map fun d => (q, d))
      = .error e := by
  induction pre with
  | nil => simp [collectExcept, hp, Except.map]
  | cons q qs ih =>
    obtain ⟨d, hd⟩ := hok q (List.mem_cons_self _ _)
    have hrec := ih fun x hx => hok x (List.mem_cons_of_mem _ hx)
    simp only [List.cons_append, List.map_cons, hd, exceptMap_ok, collectExcept, hrec,
      exceptMap_error]

/-- Collecting the tagged open results succeeds, in order and without
loss, when every open succeeds. -/
theorem collectExcept_open_ok {α : Type} (openDev : DevPath → Except IoError α)
    (paths : List DevPath) (devOf : DevPath → α)
    (hok : ∀ q ∈ paths, openDev q = .ok (devOf q)) :
    collectExcept (paths.map fun q => (openDev q).map fun d => (q, d))
      = .ok (paths.map fun p => (p, devOf p)) := by
  induction paths with
  | nil => rfl
  | cons q qs ih =>
    have hq := hok q (List.mem_cons_self _ _)
    have hrec := ih fun x hx => hok x (List.mem_cons_of_mem _ hx)
    simp only [List.map_cons, hq, exceptMap_ok, collectExcept, hrec]

/-- Claim C7: constructing the merged device stream is fail-fast.  A
pattern error fails with PatternError; a glob iteration error fails with
GlobError; the first failing open fails the whole construction with
AsyncDeviceNew carrying that error; and when everything succeeds the
merger holds every enumerated path, in order, with no partial set. -/
theorem all_devices_fail_fast :
    (∀ (α : Type) (openDev : DevPath → Except IoError α) (e : Nat),
      all_devices (.error e) openDev = .error (.PatternError e))
    ∧ (∀ (α : Type) (openDev : DevPath → Except IoError α) (pre : List DevPath) (e : Nat)
        (post : List (Except Nat DevPath)),
      all_devices (.ok (pre.map .ok ++ .error e :: post)) openDev = .error (.GlobError e))
    ∧ (∀ (α : Type) (openDev : DevPath → Except IoError α) (pre : List DevPath) (p : DevPath)
        (post : List DevPath) (e : IoError),
      (∀ q ∈ pre, ∃ d, openDev q = .ok d) → openDev p = .error e →
      all_devices (.ok ((pre ++ p :: post).map .ok)) openDev = .error (.AsyncDeviceNew e))
    ∧ (∀ (α : Type) (openDev : DevPath → Except IoError α) (paths : List DevPath)
        (devOf : DevPath → α),
      (∀ q ∈ paths, openDev q = .ok (devOf q)) →
      all_devices (.ok (paths.map .ok)) openDev = .ok (paths.map fun p => (p, devOf p))) := by
  refine ⟨fun α openDev e => rfl, fun α openDev pre e post => ?_,
    fun α openDev pre p post e hok hp => ?_, fun α openDev paths devOf hok => ?_⟩
  · have h1 := collectExcept_first_error (ε := Nat) pre e post
    simp only [all_devices, h1]
  · have h1 := collectExcept_map_ok (ε := Nat) (pre ++ p :: post)
    have h2 := collectExcept_open_error openDev pre p post e hok hp
    simp only [all_devices, h1, h2]
  · have h1 := collectExcept_map_ok (ε := Nat) paths
    have h2 := collectExcept_open_ok openDev paths devOf hok
    simp only [all_devices, h1, h2]

/-- Witness for C7 on concrete paths: an open failure on the second of
three enumerated paths aborts construction, and with no failures all
three paths are kept. -/
theorem all_devices_fail_fast_inst :
    all_devices (α := Nat) (.ok (["a", "b", "c"].map .ok))
      (fun q => if q = "b" then .error ⟨.other 3⟩ else .ok 0)
      = .error (.AsyncDeviceNew ⟨.other 3⟩)
    ∧ all_devices (α := Nat) (.ok (["a", "b", "c"].map .ok)) (fun _ => .ok 7)
      = .ok [("a", 7), ("b", 7), ("c", 7)] := by
  constructor
  · have := all_devices_fail_fast.2.2.1 Nat
      (fun q => if q = "b" then .error ⟨.other 3⟩ else .ok 0)
      ["a"] "b" ["c"] ⟨.other 3⟩ (by simp) (by simp)
    simpa using this
  · have := all_devices_fail_fast.2.2.2 Nat (fun _ => .ok 7) ["a", "b", "c"] (fun _ => 7)
      (by simp)
    simpa using this

/-- enable_codes enables the whole iteration up to and including the
first occurrence of the end code and then stops with Ok. -/
theorem enable_codes_reaches_end (dev : Enabler) (pre : List EventCode) (endC : EventCode)
    (tail : List EventCode) (hok : ∀ c ∈ pre, dev (.ecode c) = none)
    (hokEnd : dev (.ecode endC) = none) (hend : endC ∉ pre) :
    enable_codes dev (pre ++ endC :: tail) endC = (pre ++ [endC], .ok ()) := by
  induction pre with
  | nil => simp [enable_codes, hokEnd]
  | cons c cs ih =>
    have hc := hok c (List.mem_cons_self _ _)
    have hne : c ≠ endC := fun hh => hend (hh ▸ List.mem_cons_self _ _)
    have hrec := ih (fun x hx => hok x (List.mem_cons_of_mem _ hx))
      (fun hh => hend (List.mem_cons_of_mem _ hh))
    simp [enable_codes, hc, hne, hrec]

/-- enable_codes enables every remaining code and returns Ok when the
end code never occurs in the iteration. -/
theorem enable_codes_exhausts (dev : Enabler) (iter : List EventCode) (endC : EventCode)
    (hok : ∀ c ∈ iter, dev (.ecode c) = none) (hend : endC ∉ iter) :
    enable_codes dev iter endC = (iter, .ok ()) := by
  induction iter with
  | nil => rfl
  | cons c cs ih =>
    have hc := hok c (List.mem_cons_self _ _)
    have hne : c ≠ endC := fun hh => hend (hh ▸ List.mem_cons_self _ _)
    have hrec := ih (fun x hx => hok x (List.mem_cons_of_mem _ hx))
      (fun hh => hend (List.mem_cons_of_mem _ hh))
    simp [enable_codes, hc, hne, hrec]

/-- enable_codes stops at the first enable failure, returning that error
with nothing further enabled. -/
theorem enable_codes_fail_fast (dev : Enabler) (pre : List EventCode) (c : EventCode)
    (tail : List EventCode) (endC : EventCode) (e : IoError)
    (hok : ∀ x ∈ pre, dev (.ecode x) = none) (hc : dev (.ecode c) = some e)
    (hend : endC ∉ pre) :
    enable_codes dev (pre ++ c :: tail) endC = (pre, .error e) := by
  induction pre with
  | nil => simp [enable_codes, hc]
  | cons x xs ih =>
    have hx := hok x (List.mem_cons_self _ _)
    have hne : x ≠ endC := fun hh => hend (hh ▸ List.mem_cons_self _ _)
    have hrec := ih (fun y hy => hok y (List.mem_cons_of_mem _ hy))
      (fun hh => hend (List.mem_cons_of_mem _ hh))
    simp [enable_codes, hx, hne, hrec]

/-- Claim C9: enable_codes enables the codes of the iteration in order
and returns Ok right after enabling a code equal to the end code (the
range is inclusive); if the end code never occurs it enables every
remaining code and still returns Ok; an enable failure is returned at
once with no further codes enabled. -/
theorem enable_codes_spec :
    (∀ (dev : Enabler) (pre : List EventCode) (endC : EventCode) (tail : List EventCode),
      (∀ c ∈ pre, dev (.ecode c) = none) → dev (.ecode endC) = none → endC ∉ pre →
      enable_codes dev (pre ++ endC :: tail) endC = (pre ++ [endC], .ok ()))
    ∧ (∀ (dev : Enabler) (iter : List EventCode) (endC : EventCode),
      (∀ c ∈ iter, dev (.ecode c) = none) → endC ∉ iter →
      enable_codes dev iter endC = (iter, .ok ()))
    ∧ (∀ (dev : Enabler) (pre : List EventCode) (c : EventCode) (tail : List EventCode)
        (endC : EventCode) (e : IoError),
      (∀ x ∈ pre, dev (.ecode x) = none) → dev (.ecode c) = some e → endC ∉ pre →
      enable_codes dev (pre ++ c :: tail) endC = (pre, .error e)) :=
  ⟨enable_codes_reaches_end, enable_codes_exhausts, enable_codes_fail_fast⟩

/-- Witness for C9 on concrete iterations: the inclusive stop at the end
code, the exhaustion case, and the fail-fast case. -/
theorem enable_codes_spec_inst :
    enable_codes (fun _ => none) [.EV_KEY 272, .EV_KEY 273, .EV_KEY 274] (.EV_KEY 273)
      = ([.EV_KEY 272, .EV_KEY 273], .ok ())
    ∧ enable_codes (fun _ => none) [.EV_KEY 272, .EV_KEY 273] (.EV_KEY 300)
      = ([.EV_KEY 272, .EV_KEY 273], .ok ())
    ∧ enable_codes (fun a => if a = .ecode (.EV_KEY 273) then some ⟨.other 1⟩ else none)
        [.EV_KEY 272, .EV_KEY 273, .EV_KEY 274] (.EV_KEY 274)
      = ([.EV_KEY 272], .error ⟨.other 1⟩) := by
  refine ⟨?_, ?_, ?_⟩
  · have := enable_codes_spec.1 (fun _ => none) [.EV_KEY 272] (.EV_KEY 273) [.EV_KEY 274]
      (by simp) rfl (by decide)
    simpa using this
  · have := enable_codes_spec.2.1 (fun _ => none) [.EV_KEY 272, .EV_KEY 273] (.EV_KEY 300)
      (by simp) (by decide)
    simpa using this
  · have := enable_codes_spec.2.2
      (fun a => if a = .ecode (.EV_KEY 273) then some ⟨.other 1⟩ else none)
      [.EV_KEY 272] (.EV_KEY 273) [.EV_KEY 274] (.EV_KEY 274) ⟨.other 1⟩
      (by decide) (by decide) (by decide)
    simpa using this

/-- Claim C8: with every enable succeeding, enable_mouse enables exactly
the EV_REL type, the EV_KEY type, the key codes BTN_LEFT through
BTN_EXTRA, and the relative-axis codes REL_X through REL_MAX, in that
order, and nothing else — in particular no gamepad button codes, no
absolute-axis codes and no other event types.  The two iteration lists
stand for the external code iterations starting at BTN_LEFT and at
REL_X: the first begins with the five contiguous button codes and the
second ascends through defined axis codes up to REL_MAX. -/
theorem enable_mouse_exact (dev : Enabler) (keyTail relPre relTail : List EventCode)
    (hdev : ∀ a, dev a = none)
    (hrelNoMax : EventCode.EV_REL REL_MAX ∉ relPre)
    (hrelRange : ∀ c ∈ relPre, ∃ r, c = .EV_REL r ∧ REL_X ≤ r ∧ r < REL_MAX) :
    (enable_mouse dev
        ([.EV_KEY BTN_LEFT, .EV_KEY BTN_RIGHT, .EV_KEY BTN_MIDDLE, .EV_KEY BTN_SIDE,
          .EV_KEY BTN_EXTRA] ++ keyTail)
        (relPre ++ .EV_REL REL_MAX :: relTail)
      = ([.etype .EV_REL, .etype .EV_KEY,
          .ecode (.EV_KEY BTN_LEFT), .ecode (.EV_KEY BTN_RIGHT), .ecode (.EV_KEY BTN_MIDDLE),
          .ecode (.EV_KEY BTN_SIDE), .ecode (.EV_KEY BTN_EXTRA)]
          ++ (relPre ++ [EventCode.EV_REL REL_MAX]).map EnableArg.ecode, .ok ()))
    ∧ (∀ a ∈ (enable_mouse dev
        ([.EV_KEY BTN_LEFT, .EV_KEY BTN_RIGHT, .EV_KEY BTN_MIDDLE, .EV_KEY BTN_SIDE,
          .EV_KEY BTN_EXTRA] ++ keyTail)
        (relPre ++ .EV_REL REL_MAX :: relTail)).1,
        a = .etype .EV_REL ∨ a = .etype .EV_KEY
        ∨ (∃ k, a = .ecode (.EV_KEY k) ∧ BTN_LEFT ≤ k ∧ k ≤ BTN_EXTRA)
        ∨ (∃ r, a = .ecode (.EV_REL r) ∧ REL_X ≤ r ∧ r ≤ REL_MAX)) := by
  have hk := enable_codes_reaches_end dev
    [.EV_KEY BTN_LEFT, .EV_KEY BTN_RIGHT, .EV_KEY BTN_MIDDLE, .EV_KEY BTN_SIDE]
    (.EV_KEY BTN_EXTRA) keyTail (fun c _ => hdev _) (hdev _) (by decide)
  have hr := enable_codes_reaches_end dev relPre (.EV_REL REL_MAX) relTail
    (fun c _ => hdev _) (hdev _) hrelNoMax
  have hmain : enable_mouse dev
      ([.EV_KEY BTN_LEFT, .EV_KEY BTN_RIGHT, .EV_KEY BTN_MIDDLE, .EV_KEY BTN_SIDE,
        .EV_KEY BTN_EXTRA] ++ keyTail)
      (relPre ++ .EV_REL REL_MAX :: relTail)
      = ([.etype .EV_REL, .etype .EV_KEY,
          .ecode (.EV_KEY BTN_LEFT), .ecode (.EV_KEY BTN_RIGHT), .ecode (.EV_KEY BTN_MIDDLE),
          .ecode (.EV_KEY BTN_SIDE), .ecode (.EV_KEY BTN_EXTRA)]
          ++ (relPre ++ [EventCode.EV_REL REL_MAX]).map EnableArg.ecode, .ok ()) := by
    unfold enable_mouse
    simp only [hdev]
    simp only [List.cons_append, List.nil_append] at hk ⊢
    rw [hk, hr]
    simp
  refine ⟨hmain, ?_⟩
  intro a ha
  rw [hmain] at ha
  simp only [List.mem_append, List.mem_cons, List.not_mem_nil, or_false, List.mem_map] at ha
  rcases ha with ((h | h | h | h | h | h | h) | ⟨c, hc, rfl⟩)
  · exact Or.inl h
  · exact Or.inr (Or.inl h)
  · exact Or.inr (Or.inr (Or.inl ⟨BTN_LEFT, h, by decide, by decide⟩))
  · exact Or.inr (Or.inr (Or.inl ⟨BTN_RIGHT, h, by decide, by decide⟩))
  · exact Or.inr (Or.inr (Or.inl ⟨BTN_MIDDLE, h, by decide, by decide⟩))
  · exact Or.inr (Or.inr (Or.inl ⟨BTN_SIDE, h, by decide, by decide⟩))
  · exact Or.inr (Or.inr (Or.inl ⟨BTN_EXTRA, h, by decide, by decide⟩))
  · rcases hc with hcp | rfl
    · obtain ⟨r, rfl, hr1, hr2⟩ := hrelRange c hcp
      exact Or.inr (Or.inr (Or.inr ⟨r, rfl, hr1, Nat.le_of_lt hr2⟩))
    · exact Or.inr (Or.inr (Or.inr ⟨REL_MAX, rfl, by decide, le_refl _⟩))

/-- Witness for C8 with the concrete defined-code iterations of the
external crate: buttons 272 through 276 and axis codes 0 through 12 then
15. -/
theorem enable_mouse_exact_inst :
    enable_mouse (fun _ => none)
      [.EV_KEY 272, .EV_KEY 273, .EV_KEY 274, .EV_KEY 275, .EV_KEY 276, .EV_KEY 277]
      [.EV_REL 0, .EV_REL 1, .EV_REL 2, .EV_REL 3, .EV_REL 4, .EV_REL 5, .EV_REL 6,
       .EV_REL 7, .EV_REL 8, .EV_REL 9, .EV_REL 10, .EV_REL 11, .EV_REL 12, .EV_REL 15]
      = ([.etype .EV_REL, .etype .EV_KEY,
          .ecode (.EV_KEY 272), .ecode (.EV_KEY 273), .ecode (.EV_KEY 274),
          .ecode (.EV_KEY 275), .ecode (.EV_KEY 276),
          .ecode (.EV_REL 0), .ecode (.EV_REL 1), .ecode (.EV_REL 2), .ecode (.EV_REL 3),
          .ecode (.EV_REL 4), .ecode (.EV_REL 5), .ecode (.EV_REL 6), .ecode (.EV_REL 7),
          .ecode (.EV_REL 8), .ecode (.EV_REL 9), .ecode (.EV_REL 10), .ecode (.EV_REL 11),
          .ecode (.EV_REL 12), .ecode (.EV_REL 15)], .ok ()) := by
  have := (enable_mouse_exact (fun _ => none) [.EV_KEY 277]
    [.EV_REL 0, .EV_REL 1, .EV_REL 2, .EV_REL 3, .EV_REL 4, .EV_REL 5, .EV_REL 6,
     .EV_REL 7, .EV_REL 8, .EV_REL 9, .EV_REL 10, .EV_REL 11, .EV_REL 12] []
    (fun _ => rfl) (by decide)
    (by intro c hc; fin_cases hc <;> exact ⟨_, rfl, by decide, by decide⟩)).1
  simpa using this

end EvdevUtils
